import Mathlib

/-!
Verification development for the tgpt-code-interpreter service.

The definitions below are a shallow embedding of the Python source:
  * `src/code_interpreter/utils/file_meta.py`   — file-metadata index
  * `src/code_interpreter/services/storage.py`  — content-addressed object store
  * `src/code_interpreter/services/http_server.py` — ingress front-end
  * `src/code_interpreter/services/kubernetes_code_executor.py` — executor pool

Timestamps are modelled as integers (an abstract linearly ordered clock);
`datetime.datetime.now() > expiry_date` becomes `expiry < now` on `Int`.
SQLite rows are modelled as an association list keyed by the primary key
`(file_hash, chat_id, filename)`; an SQL `UPDATE ... WHERE key` is a map over
the matching entries.  `NULL` columns are `Option`.
-/

namespace CodeInterp

/-- Primary key of the `files` table: `(file_hash, chat_id, filename)`. -/
structure FileKey where
  file_hash : String
  chat_id : String
  filename : String
deriving DecidableEq, Repr

/-- One row of the `files` table: `remaining` (NULL = unlimited) and
`expires_at` (NULL = no expiry).  `remaining` is `Option Int` because the
column is an SQL INTEGER and `register` stores whatever integer it is given. -/
structure FileRecord where
  remaining : Option Int
  expires_at : Option Int
deriving DecidableEq, Repr

/-- The `files` table: rows keyed by the primary key (unique in SQLite;
operations below only ever act through the key). -/
abbrev Db := List (FileKey × FileRecord)

/-- `SELECT ... WHERE file_hash = ? AND chat_id = ? AND filename = ?` —
returns the (unique) matching row, if any. -/
def lookup : Db → FileKey → Option FileRecord
  | [], _ => none
  | e :: es, k => if e.1 == k then some e.2 else lookup es k

/-- `UPDATE files SET ... WHERE file_hash = ? AND chat_id = ? AND filename = ?`
— applies `f` to every row matching the key. -/
def updateRecord (db : Db) (k : FileKey) (f : FileRecord → FileRecord) : Db :=
  db.map (fun e => if e.1 == k then (e.1, f e.2) else e)

/-- Errors raised by the index, as seen by its callers:
`FileNotFoundError` and `PermissionError` (= "expired" / limit reached). -/
inductive FileErr where
  | NotFound
  | Expired
deriving DecidableEq, Repr

/-- `register(file_hash, chat_id, filename, max_downloads, days_to_expire)`:
raises `TypeError` on empty key parts, defaults `max_downloads` to
`config.global_max_downloads`, stores `NULL` for `max_downloads == 0`
(unlimited), computes `expires_at = now + days` when `days_to_expire` is
truthy and positive, and upserts the row. -/
def register (db : Db) (k : FileKey) (maxDownloads : Option Int)
    (daysToExpire : Option Int) (globalMax : Int) (now : Int) : Except Unit Db :=
  if k.file_hash = "" ∨ k.chat_id = "" ∨ k.filename = "" then
    .error ()  -- TypeError
  else
    let md := maxDownloads.getD globalMax
    let remaining : Option Int := if md = 0 then none else some md
    let expiresAt : Option Int :=
      match daysToExpire with
      | some d => if d ≠ 0 ∧ d > 0 then some (now + d * 86400) else none
      | none => none
    let rec1 : FileRecord := { remaining := remaining, expires_at := expiresAt }
    -- INSERT ... ON CONFLICT(file_hash, chat_id, filename) DO UPDATE
    if db.any (fun e => e.1 == k) then
      .ok (db.map (fun e => if e.1 == k then (e.1, rec1) else e))
    else
      .ok (db ++ [(k, rec1)])

/-- `check_and_decrement(file_hash, chat_id, filename)`: returns the table
state after the call together with the error raised, if any.  The date-expiry
branch both writes `remaining := 0` and raises; the decrement branch runs
`SET remaining = remaining - 1`.  (The `ValueError` branch for an unparsable
date string is unrepresentable here: timestamps are abstract integers, and
`register` only ever stores well-formed timestamps.) -/
def check_and_decrement (now : Int) (db : Db) (k : FileKey) :
    Db × Option FileErr :=
  match lookup db k with
  | none => (db, some .NotFound)
  | some r =>
    let dateExpired : Bool :=
      match r.expires_at with
      | some e => decide (e < now)  -- datetime.datetime.now() > expiry_date
      | none => false
    if dateExpired then
      (updateRecord db k (fun rec1 => { rec1 with remaining := some 0 }),
       some .Expired)
    else
      match r.remaining with
      | some rem =>
        if rem ≤ 0 then (db, some .Expired)
        else
          (updateRecord db k
            (fun rec1 => { rec1 with remaining := rec1.remaining.map (· - 1) }),
           none)
      | none => (db, none)

/-- `expire(file_hash, chat_id, filename)`: `UPDATE ... SET remaining = 0`;
raises `FileNotFoundError` when `rowcount == 0`. -/
def expire (db : Db) (k : FileKey) : Db × Option FileErr :=
  if db.any (fun e => e.1 == k) then
    (updateRecord db k (fun rec1 => { rec1 with remaining := some 0 }), none)
  else
    (db, some .NotFound)

/-- SQL three-valued truth of `remaining != 0` inside a `WHERE` clause:
`NULL != 0` evaluates to `NULL`, which does not select the row. -/
def sqlRemainingNeqZero (r : Option Int) : Bool :=
  match r with
  | some v => decide (v ≠ 0)
  | none => false

/-- `cleanup_expired_files()`: `UPDATE files SET remaining = 0 WHERE
expires_at IS NOT NULL AND expires_at < datetime('now') AND remaining != 0`.
The subsequent SELECT of expired rows (and the commented-out blob deletion)
does not change the table. -/
def cleanup_expired_files (now : Int) (db : Db) : Db :=
  db.map (fun e =>
    let sel : Bool :=
      (match e.2.expires_at with
       | some x => decide (x < now)
       | none => false) && sqlRemainingNeqZero e.2.remaining
    if sel then (e.1, { e.2 with remaining := some 0 }) else e)

/-- The sequence of errors produced by repeatedly calling
`check_and_decrement` on one key at the given sequence of clock instants,
threading the table state through the calls. -/
def cadTrace (k : FileKey) : Db → List Int → List (Option FileErr)
  | _, [] => []
  | db, t :: ts =>
    let p := check_and_decrement t db k
    p.2 :: cadTrace k p.1 ts

/-- Example key used in concrete witnesses. -/
def exKey : FileKey := ⟨"h1", "c1", "data.txt"⟩

/-- Example table: one row, one download left, expires at instant 5. -/
def exDb : Db := [(exKey, { remaining := some 1, expires_at := some 5 })]

/-- Example table: one row whose download limit is already exhausted. -/
def exDbZero : Db := [(exKey, { remaining := some 0, expires_at := none })]

/-- The sweep the code performs, written out per the amended claim: set
`remaining := 0` exactly on rows whose `expires_at` is present and strictly
earlier than `now` and whose `remaining` is present and nonzero; every other
row (including rows with unlimited downloads) is unchanged. -/
def cleanupSweep (now : Int) (db : Db) : Db :=
  db.map (fun e =>
    match e.2.expires_at, e.2.remaining with
    | some x, some m =>
      if x < now ∧ m ≠ 0 then (e.1, { e.2 with remaining := some 0 }) else e
    | _, _ => e)

/-- Example table: one unlimited-download row whose expiry date has passed. -/
def exDbUnl : Db := [(exKey, { remaining := none, expires_at := some 0 })]

/-- Invariant I2 for one row: `remaining ≥ 0` whenever present. -/
def recNonneg (r : FileRecord) : Bool :=
  match r.remaining with
  | some m => decide (0 ≤ m)
  | none => true

/-- Invariant I2 for the whole table. -/
abbrev dbNonneg (db : Db) : Prop := ∀ e ∈ db, recNonneg e.2 = true

/-- Mutable state of `KubernetesCodeExecutor`'s warm pool: the queue `Q` of
Ready pods (pods are identified by numbers here), the in-flight spawn counter
`S`, and the constant target depth `T`.  The counter is an `Int`: the Python
attribute is a plain integer. -/
structure PoolState where
  executor_pod_queue : List Nat
  executor_pod_queue_spawning_count : Int
  executor_pod_queue_target_length : Int
deriving DecidableEq, Repr

/-- `fill_executor_pod_queue()`: computes `count_to_spawn = T - |Q| - S`,
returns unchanged when it is `≤ 0`, otherwise adds it to `S` up front and
then consumes the spawn results in completion order (`outcomes`: `some pod`
for a pod that became Ready, `none` for a failed spawn), appending each Ready
pod to `Q` and decrementing `S` once per result in either case. -/
def fill_executor_pod_queue (st : PoolState) (outcomes : List (Option Nat)) :
    PoolState :=
  let count_to_spawn : Int :=
    st.executor_pod_queue_target_length
      - st.executor_pod_queue.length
      - st.executor_pod_queue_spawning_count
  if count_to_spawn ≤ 0 then st
  else
    let st1 := { st with
      executor_pod_queue_spawning_count :=
        st.executor_pod_queue_spawning_count + count_to_spawn }
    outcomes.foldl
      (fun s o =>
        match o with
        | some pod =>
          { s with
            executor_pod_queue := s.executor_pod_queue ++ [pod],
            executor_pod_queue_spawning_count :=
              s.executor_pod_queue_spawning_count - 1 }
        | none =>
          { s with
            executor_pod_queue_spawning_count :=
              s.executor_pod_queue_spawning_count - 1 }) st1

/-- Example pool state: empty queue, no spawns in flight, target depth 2. -/
def exPool : PoolState :=
  { executor_pod_queue := [],
    executor_pod_queue_spawning_count := 0,
    executor_pod_queue_target_length := 2 }

/-- A filesystem path, as a list of segments below the storage root. -/
abbrev FilePath1 := List String

/-- A filesystem: the set of directories that exist and the regular files
with their contents. -/
structure FS where
  dirs : List FilePath1
  files : List (FilePath1 × String)
deriving DecidableEq, Repr

/-- Contents of the file at a path, if it exists. -/
def lookupFile : List (FilePath1 × String) → FilePath1 → Option String
  | [], _ => none
  | e :: es, p => if e.1 == p then some e.2 else lookupFile es p

/-- `mkdir(exist_ok=True)`. -/
def mkdirExistOk (fs : FS) (p : FilePath1) : FS :=
  if p ∈ fs.dirs then fs else { fs with dirs := fs.dirs ++ [p] }

/-- `open(path, "wb")` followed by writes: creates or truncates the file so
that it holds `data`. -/
def writeFile (fs : FS) (p : FilePath1) (data : String) : FS :=
  if fs.files.any (fun e => e.1 == p) then
    { fs with files := fs.files.map (fun e => if e.1 == p then (p, data) else e) }
  else
    { fs with files := fs.files ++ [(p, data)] }

/-- `Storage.writer(filename, chat_id)`: allocates the random handle `hash`
at scope entry, creates `<root>/<chat_id>` and `<root>/<chat_id>/<hash>`,
opens `<root>/<chat_id>/<hash>/<filename>` for writing, and runs the caller's
scope body, which writes `data` (for a failing body, the bytes written before
the failure).  The `async with` closes the file on both paths; the source
removes nothing on scope failure.  Returns the filesystem and whether the
scope succeeded (`bodyFails = true` means the body raised and the exception
propagated). -/
def Storage.writer (fs : FS) (filename chat_id : String) (hash : String)
    (data : String) (bodyFails : Bool) : FS × Bool :=
  let fs1 := mkdirExistOk fs [chat_id]
  let fs2 := mkdirExistOk fs1 [chat_id, hash]
  let fs3 := writeFile fs2 [chat_id, hash, filename] data
  (fs3, !bodyFails)

/-- Errors surfaced by `Storage.reader`: the two index failures, re-raised,
and the missing-blob condition ("File not found: ..." on a live record). -/
inductive ReadErr where
  | NotFound
  | Expired
  | NotFoundOnDisk
deriving DecidableEq, Repr

/-- `Storage.reader(object_hash, chat_id, filename)`: first calls
`check_and_decrement` (re-raising its failures), then raises
`FileNotFoundError` when `object_hash` is empty or the blob
`<root>/<chat_id>/<object_hash>/<filename>` does not exist, else yields the
byte stream.  The index state produced by `check_and_decrement` is kept in
every outcome — nothing restores it on the error path. -/
def Storage.reader (now : Int) (db : Db) (fs : FS) (k : FileKey) :
    Db × Option ReadErr :=
  match check_and_decrement now db k with
  | (db', some FileErr.NotFound) => (db', some .NotFound)
  | (db', some FileErr.Expired) => (db', some .Expired)
  | (db', none) =>
    if k.file_hash = "" ∨
        lookupFile fs.files [k.chat_id, k.file_hash, k.filename] = none then
      (db', some .NotFoundOnDisk)
    else
      (db', none)

/-- One character of `[0-9a-zA-Z_-]`. -/
def isIdChar (c : Char) : Bool :=
  c.isAlpha || c.isDigit || c == '_' || c == '-'

/-- `re.match(r'^[0-9a-zA-Z_-]{1,255}$', s)` (the `not s` guard is subsumed
by the length bound). -/
def validIdent (s : String) : Bool :=
  decide (1 ≤ s.data.length) && decide (s.data.length ≤ 255) &&
    s.data.all isIdChar

/-- One character of `[0-9a-zA-Z._-]`. -/
def isFileChar (c : Char) : Bool := isIdChar c || c == '.'

/-- `re.match(r'^[0-9a-zA-Z._-]{1,255}$', s)`. -/
def validFileName (s : String) : Bool :=
  decide (1 ≤ s.data.length) && decide (s.data.length ≤ 255) &&
    s.data.all isFileChar

/-- The `/v1/download` handler: validates the three identifiers (400),
calls `check_and_decrement` and collapses any index failure to 404, then
returns 404 when the blob is missing on disk, else streams it (no error).
The pair carries the index state after the call and the HTTP error status,
if any. -/
def download (now : Int) (db : Db) (fs : FS) (k : FileKey) :
    Db × Option Nat :=
  if !(validIdent k.file_hash) then (db, some 400)
  else if !(validIdent k.chat_id) then (db, some 400)
  else if !(validFileName k.filename) then (db, some 400)
  else
    match check_and_decrement now db k with
    | (db', some _) => (db', some 404)
    | (db', none) =>
      if lookupFile fs.files [k.chat_id, k.file_hash, k.filename] = none then
        (db', some 404)
      else
        (db', none)

/-- The empty filesystem. -/
def exFS : FS := { dirs := [], files := [] }

/-- JSON values, as decoded by `json.loads`: objects are ordered key/value
lists (Python dicts preserve insertion order). -/
inductive J where
  | null
  | bool (b : Bool)
  | num (n : Int)
  | str (s : String)
  | arr (xs : List J)
  | obj (kvs : List (String × J))
deriving Repr

/-- The `ALIASES` table of the ingress front-end. -/
def ALIASES (k : String) : Option String :=
  if k == "sourceCode" then some "source_code"
  else if k == "code" then some "source_code"
  else if k == "timeoutSeconds" then some "timeout"
  else if k == "limitDownloads" then some "limit"
  else none

/-- Membership of the `ALIASES` table's domain. -/
def isAliasKey (k : String) : Bool := (ALIASES k).isSome

/-- `[A-Z]` of the `_CAMEL_RE` regex (ASCII uppercase). -/
def isUpperAscii (c : Char) : Bool :=
  decide (65 ≤ c.toNat) && decide (c.toNat ≤ 90)

/-- `str.lower()` on one character (ASCII; the keys the service handles are
ASCII identifiers). -/
def toLowerAscii (c : Char) : Char :=
  if 65 ≤ c.toNat ∧ c.toNat ≤ 90 then Char.ofNat (c.toNat + 32) else c

/-- The characters after position 0: `_CAMEL_RE.sub("_", name)` inserts `_`
before every uppercase letter that is not the first character, and
`.lower()` then lower-cases everything. -/
def snakeTail : List Char → List Char
  | [] => []
  | c :: cs =>
    (if isUpperAscii c then ['_', toLowerAscii c] else [toLowerAscii c])
      ++ snakeTail cs

/-- `camel_to_snake(name) = _CAMEL_RE.sub("_", name).lower()`. -/
def camel_to_snake (s : String) : String :=
  match s.data with
  | [] => ""
  | c :: cs => ⟨toLowerAscii c :: snakeTail cs⟩

/-- `ALIASES.get(k, camel_to_snake(k))` — the key normalisation applied to
every dict key. -/
def canonKey (k : String) : String := (ALIASES k).getD (camel_to_snake k)

/-- `out[k] = v` on a Python dict: an existing key keeps its position and
gets the new value; a fresh key is appended. -/
def dictInsert : List (String × J) → String → J → List (String × J)
  | [], k, v => [(k, v)]
  | e :: es, k, v =>
    if e.1 == k then (e.1, v) :: es else e :: dictInsert es k v

/-- Building the dict `out` by inserting the processed pairs in order. -/
def dictOfAux : List (String × J) → List (String × J) → List (String × J)
  | acc, [] => acc
  | acc, (k, v) :: tl => dictOfAux (dictInsert acc k v) tl

mutual

/-- `canonicalise(obj)`: recursively normalise dict keys (aliases, then
camelCase→snake_case) and rebuild each dict in iteration order. -/
def canonicalise : J → J
  | .null => .null
  | .bool b => .bool b
  | .num n => .num n
  | .str s => .str s
  | .arr xs => .arr (canonList xs)
  | .obj kvs => .obj (dictOfAux [] (canonKVs kvs))

/-- `[canonicalise(i) for i in obj]`. -/
def canonList : List J → List J
  | [] => []
  | x :: xs => canonicalise x :: canonList xs

/-- The processed pairs `(ALIASES.get(k, camel_to_snake(k)), canonicalise(v))`
in iteration order. -/
def canonKVs : List (String × J) → List (String × J)
  | [] => []
  | (k, v) :: kvs => (canonKey k, canonicalise v) :: canonKVs kvs

end

mutual

/-- Side condition of the amended idempotence claim: no object key anywhere
in the value canonicalises into the `ALIASES` domain (the only offender is a
key normalising to `"code"`, such as `"Code"`). -/
def goodKeys : J → Bool
  | .null => true
  | .bool _ => true
  | .num _ => true
  | .str _ => true
  | .arr xs => goodList xs
  | .obj kvs => goodKVs kvs

/-- `goodKeys` on every element. -/
def goodList : List J → Bool
  | [] => true
  | x :: xs => goodKeys x && goodList xs

/-- `goodKeys` on every value, and no key canonicalising into `ALIASES`. -/
def goodKVs : List (String × J) → Bool
  | [] => true
  | (k, v) :: kvs => !(isAliasKey (canonKey k)) && goodKeys v && goodKVs kvs

end

/-- The parse step the `/v1/execute` handler actually executes:
`payload = json.loads(raw_bytes)` with no exception handler — the json-repair
fallback in the handler's own docstring is commented out, so a parse failure
(`strict = none`) escapes the handler and FastAPI answers 500. -/
def execute_parse_stage (strict : Option J) : Except Nat J :=
  match strict with
  | some p => Except.ok p
  | none => Except.error 500

/-- Modelled from the spec: the parse-or-repair stage that the handler's
docstring and the spec describe — strict parse, then `repair_json` and
re-parse on failure, then 422 — whose implementation is present in the
source only as a commented-out block. -/
def execute_parse_stage_documented (strict repaired : Option J) : Except Nat J :=
  match strict with
  | some p => Except.ok p
  | none =>
    match repaired with
    | some p => Except.ok p
    | none => Except.error 422

/-- Python truthiness of a string: nonempty strings are truthy. -/
def pyStrTruthy (s : String) : Bool := decide (s ≠ "")

/-- `_is_internal_request(req)`: the host header is compared against the
allow-list; the IP check evaluates
`ip_address(req.client.host) in ip_network(cidr) or "127.0.0.1"` per entry —
the `or "127.0.0.1"` makes every element of the generator truthy.  The CIDR
membership test itself is abstracted as `ipInNetwork`. -/
def is_internal_request (ipInNetwork : String → String → Bool)
    (host client_ip : String) (allowlist : List String) : Bool :=
  let host_ok := allowlist.contains host
  let ip_ok := allowlist.any
    (fun cidr => ipInNetwork client_ip cidr || pyStrTruthy "127.0.0.1")
  host_ok || ip_ok

/-- `_guard_spawn(req)`, called by all four spawn-bearing endpoints
(`execute`, `upload`, `parse-custom-tool`, `execute-custom-tool`): admits
everything when `public_spawn_enabled`, otherwise raises 403 unless
`_is_internal_request`. -/
def guard_spawn (public_spawn_enabled : Bool)
    (ipInNetwork : String → String → Bool)
    (host client_ip : String) (allowlist : List String) : Option Nat :=
  if public_spawn_enabled then none
  else if !(is_internal_request ipInNetwork host client_ip allowlist) then
    some 403
  else none

/-- Looking a key up after an `UPDATE` on the same key applies the update to
the looked-up row. -/
theorem lookup_updateRecord (db : Db) (k : FileKey) (f : FileRecord → FileRecord) :
    lookup (updateRecord db k f) k = (lookup db k).map f := by
  induction db with
  | nil => rfl
  | cons e es ih =>
    by_cases he : (e.1 == k) = true
    · simp [lookup, updateRecord, he]
    · simp only [Bool.not_eq_true] at he
      simpa [lookup, updateRecord, he] using ih

/-- An `UPDATE` on one key leaves every other key's row unchanged. -/
theorem lookup_updateRecord_ne (db : Db) (k k' : FileKey)
    (f : FileRecord → FileRecord) (h : k' ≠ k) :
    lookup (updateRecord db k f) k' = lookup db k' := by
  induction db with
  | nil => rfl
  | cons e es ih =>
    have hne : (e.1 == k) = true → (e.1 == k') = false := by
      intro hk
      rw [beq_iff_eq] at hk
      subst hk
      simpa [beq_iff_eq] using fun hk' => h hk'.symm
    by_cases he : (e.1 == k) = true
    · simpa [lookup, updateRecord, he, hne he] using ih
    · simp only [Bool.not_eq_true] at he
      by_cases hc : (e.1 == k') = true
      · simp [lookup, updateRecord, he, hc]
      · simp only [Bool.not_eq_true] at hc
        simpa [lookup, updateRecord, he, hc] using ih

/-- A successful lookup means the key is present for `List.any`. -/
theorem any_key_of_lookup (db : Db) (k : FileKey) (r : FileRecord)
    (h : lookup db k = some r) : db.any (fun e => e.1 == k) = true := by
  induction db with
  | nil => simp [lookup] at h
  | cons e es ih =>
    by_cases he : (e.1 == k) = true
    · simp [he]
    · simp only [Bool.not_eq_true] at he
      simp only [lookup, he, Bool.false_eq_true, reduceIte] at h
      simp [List.any_cons, he, ih h]

/-- A failed lookup means the key is absent for `List.any`. -/
theorem any_key_false_of_lookup_none (db : Db) (k : FileKey)
    (h : lookup db k = none) : db.any (fun e => e.1 == k) = false := by
  induction db with
  | nil => rfl
  | cons e es ih =>
    by_cases he : (e.1 == k) = true
    · simp [lookup, he] at h
    · simp only [Bool.not_eq_true] at he
      simp only [lookup, he, Bool.false_eq_true, reduceIte] at h
      simp [List.any_cons, he, ih h]

/-- Once a row's `remaining` is `0`, any `check_and_decrement` call raises
`Expired` and leaves the row with `remaining = 0`. -/
theorem cad_zero_persists (now : Int) (db : Db) (k : FileKey) (r : FileRecord)
    (h : lookup db k = some r) (h0 : r.remaining = some 0) :
    (check_and_decrement now db k).2 = some FileErr.Expired ∧
    ∃ r', lookup (check_and_decrement now db k).1 k = some r' ∧
      r'.remaining = some 0 := by
  have hres : check_and_decrement now db k =
      (updateRecord db k (fun x => { x with remaining := some 0 }),
       some FileErr.Expired) ∨
      check_and_decrement now db k = (db, some FileErr.Expired) := by
    cases hexp : r.expires_at with
    | none =>
      right
      simp [check_and_decrement, h, hexp, h0]
    | some e =>
      by_cases hlt : e < now
      · left
        simp [check_and_decrement, h, hexp, hlt]
      · right
        simp [check_and_decrement, h, hexp, hlt, h0]
  rcases hres with hres | hres
  · rw [hres]
    refine ⟨rfl, ⟨{ r with remaining := some 0 }, ?_, rfl⟩⟩
    rw [lookup_updateRecord, h]
    rfl
  · rw [hres]
    exact ⟨rfl, ⟨r, h, h0⟩⟩

/-- Once a row's `remaining` is `0`, every later `check_and_decrement` on that
key fails with `Expired`, whatever the clock reads at each call. -/
theorem cad_trace_all_expired (ts : List Int) (db : Db) (k : FileKey)
    (r : FileRecord) (h : lookup db k = some r) (h0 : r.remaining = some 0) :
    cadTrace k db ts = ts.map (fun _ => some FileErr.Expired) := by
  induction ts generalizing db r with
  | nil => rfl
  | cons t ts ih =>
    obtain ⟨herr, r', hr', h0'⟩ := cad_zero_persists t db k r h h0
    simp only [cadTrace, herr, List.map_cons, List.cons.injEq, true_and]
    exact ih _ r' hr' h0'

/-- C2 (amended): behaviour of `check_and_decrement(hash, chat_id, filename)`:
no record ⇒ `NotFound`; `expires_at` present and strictly earlier than `now`
⇒ `remaining := 0` and `Expired`; otherwise `remaining` present and `≤ 0` ⇒
`Expired` with the table unchanged; otherwise a present `remaining` is
decremented by exactly 1 and the call succeeds; unlimited records succeed
with the table unchanged. -/
theorem C2_check_and_decrement_spec (now : Int) (db : Db) (k : FileKey) :
    (lookup db k = none →
      check_and_decrement now db k = (db, some FileErr.NotFound)) ∧
    (∀ r e, lookup db k = some r → r.expires_at = some e → e < now →
      check_and_decrement now db k =
        (updateRecord db k (fun x => { x with remaining := some 0 }),
         some FileErr.Expired)) ∧
    (∀ r m, lookup db k = some r →
      (∀ e, r.expires_at = some e → ¬ e < now) → r.remaining = some m →
      m ≤ 0 → check_and_decrement now db k = (db, some FileErr.Expired)) ∧
    (∀ r m, lookup db k = some r →
      (∀ e, r.expires_at = some e → ¬ e < now) → r.remaining = some m →
      0 < m →
      (check_and_decrement now db k).2 = none ∧
      lookup (check_and_decrement now db k).1 k =
        some { r with remaining := some (m - 1) }) ∧
    (∀ r, lookup db k = some r →
      (∀ e, r.expires_at = some e → ¬ e < now) → r.remaining = none →
      check_and_decrement now db k = (db, none)) := by
  refine ⟨?_, ?_, ?_, ?_, ?_⟩
  · intro h
    simp [check_and_decrement, h]
  · intro r e h hexp hlt
    simp [check_and_decrement, h, hexp, hlt]
  · intro r m h hd hm hm0
    have hdx : (∀ e, r.expires_at = some e → decide (e < now) = false) := by
      intro e he
      simpa using hd e he
    cases hexp : r.expires_at with
    | none => simp [check_and_decrement, h, hexp, hm, hm0]
    | some e => simp [check_and_decrement, h, hexp, hdx e hexp, hm, hm0]
  · intro r m h hd hm hm0
    have hnle : ¬ m ≤ 0 := not_le.mpr hm0
    have hbranch : check_and_decrement now db k =
        (updateRecord db k
          (fun x => { x with remaining := x.remaining.map (· - 1) }), none) := by
      cases hexp : r.expires_at with
      | none => simp [check_and_decrement, h, hexp, hm, hnle]
      | some e =>
        have hdx : decide (e < now) = false := by simpa using hd e hexp
        simp [check_and_decrement, h, hexp, hdx, hm, hnle]
    rw [hbranch]
    refine ⟨rfl, ?_⟩
    rw [lookup_updateRecord, h]
    simp [hm]
  · intro r h hd hr
    cases hexp : r.expires_at with
    | none => simp [check_and_decrement, h, hexp, hr]
    | some e =>
      have hdx : decide (e < now) = false := by simpa using hd e hexp
      simp [check_and_decrement, h, hexp, hdx, hr]

/-- C2 witness: a record with one download left and a future expiry is
decremented to zero and the call succeeds. -/
theorem C2_witness :
    (check_and_decrement 3 exDb exKey).2 = none ∧
    lookup (check_and_decrement 3 exDb exKey).1 exKey =
      some { remaining := some 0, expires_at := some 5 } := by
  have h := (C2_check_and_decrement_spec 3 exDb exKey).2.2.2.1
    { remaining := some 1, expires_at := some 5 } 1 (by decide)
    (by intro e he; simp at he; omega) rfl (by decide)
  exact ⟨h.1, h.2⟩

/-- C2 counterexample: at the instant `now = expires_at` (here both 5) the
claim requires `Expired`, but the code checks `now > expiry_date` strictly,
so the call succeeds and decrements the counter. -/
theorem C2_counterexample :
    lookup exDb exKey = some { remaining := some 1, expires_at := some 5 } ∧
    ((5 : Int) ≤ 5) ∧
    (check_and_decrement 5 exDb exKey).2 = none := by
  refine ⟨by decide, by decide, by decide⟩

/-- C3: after `expire` succeeds the record's `remaining` is `0`; once
`remaining = 0` (by `expire` or by exhaustion) every subsequent
`check_and_decrement` on the record fails with `Expired`; `expire` on an
absent key fails `NotFound` and changes no record. -/
theorem C3_expire_exhaustion_spec (db : Db) (k : FileKey) :
    (lookup db k = none → expire db k = (db, some FileErr.NotFound)) ∧
    (∀ r, lookup db k = some r →
      (expire db k).2 = none ∧
      lookup (expire db k).1 k = some { r with remaining := some 0 }) ∧
    (∀ r, lookup db k = some r → r.remaining = some 0 →
      ∀ ts : List Int,
        cadTrace k db ts = ts.map (fun _ => some FileErr.Expired)) := by
  refine ⟨?_, ?_, ?_⟩
  · intro h
    simp [expire, any_key_false_of_lookup_none db k h]
  · intro r h
    have hany := any_key_of_lookup db k r h
    refine ⟨by simp [expire, hany], ?_⟩
    simp only [expire, hany, reduceIte]
    rw [lookup_updateRecord, h]
    rfl
  · intro r h h0 ts
    exact cad_trace_all_expired ts db k r h h0

/-- C3 witness: on a row with an exhausted limit, two further calls (at two
different instants) both fail with `Expired`; and expiring a missing key
reports `NotFound` without touching the table. -/
theorem C3_witness :
    cadTrace exKey exDbZero [3, 8] =
      [some FileErr.Expired, some FileErr.Expired] :=
  (C3_expire_exhaustion_spec exDbZero exKey).2.2
    { remaining := some 0, expires_at := none } (by decide) rfl [3, 8]

/-- The code's sweep coincides with `cleanupSweep`. -/
theorem cleanup_eq_sweep (now : Int) (db : Db) :
    cleanup_expired_files now db = cleanupSweep now db := by
  have hone : ∀ e : FileKey × FileRecord,
      (let sel : Bool :=
        (match e.2.expires_at with
         | some x => decide (x < now)
         | none => false) && sqlRemainingNeqZero e.2.remaining
       if sel then (e.1, { e.2 with remaining := some 0 }) else e) =
      (match e.2.expires_at, e.2.remaining with
       | some x, some m =>
         if x < now ∧ m ≠ 0 then (e.1, { e.2 with remaining := some 0 }) else e
       | _, _ => e) := by
    intro e
    cases hexp : e.2.expires_at with
    | none => simp [sqlRemainingNeqZero]
    | some x =>
      cases hrem : e.2.remaining with
      | none => simp [sqlRemainingNeqZero]
      | some m =>
        by_cases hc : x < now ∧ m ≠ 0
        · simp [sqlRemainingNeqZero, hc, hc.1, hc.2]
        · rcases not_and_or.mp hc with hx | hm
          · simp [sqlRemainingNeqZero, hc, hx]
          · simp only [ne_eq, not_not] at hm
            simp [sqlRemainingNeqZero, hc, hm]
  unfold cleanup_expired_files cleanupSweep
  induction db with
  | nil => rfl
  | cons e es ih => rw [List.map_cons, List.map_cons, ih, hone e]

/-- C7 (amended): `cleanup_expired_files` performs exactly the sweep
described by `cleanupSweep` — rows with a present, strictly-past `expires_at`
and a present, nonzero `remaining` get `remaining := 0`; all other rows, in
particular unlimited-download rows (`remaining = NULL`, which SQL's
`remaining != 0` does not select), are left unchanged. -/
theorem C7_cleanup_spec (now : Int) (db : Db) :
    cleanup_expired_files now db = cleanupSweep now db :=
  cleanup_eq_sweep now db

/-- C7 counterexample: an unlimited-download record (`remaining = NULL`)
whose `expires_at` (instant 0) is at or before `now` (instant 5) — the claim
says the sweep must set its `remaining := 0`, but the code leaves the row
unchanged, because SQL's `remaining != 0` is NULL (not true) on a NULL
column. -/
theorem C7_counterexample :
    lookup exDbUnl exKey = some { remaining := none, expires_at := some 0 } ∧
    ((0 : Int) ≤ 5) ∧
    cleanup_expired_files 5 exDbUnl = exDbUnl := by
  refine ⟨by decide, by decide, by decide⟩

/-- I2 for one row, spelled as a proposition about `remaining`. -/
theorem recNonneg_iff (r : FileRecord) :
    recNonneg r = true ↔ ∀ m, r.remaining = some m → 0 ≤ m := by
  cases hr : r.remaining <;> simp [recNonneg, hr]

/-- Rows of an updated table: each is an original row, or the image under the
update of an original row whose key matches. -/
theorem mem_updateRecord (db : Db) (k : FileKey) (f : FileRecord → FileRecord)
    (e' : FileKey × FileRecord) (h : e' ∈ updateRecord db k f) :
    e' ∈ db ∨ ∃ e ∈ db, e.1 = k ∧ e' = (e.1, f e.2) := by
  unfold updateRecord at h
  obtain ⟨e, he, heq⟩ := List.mem_map.mp h
  by_cases hk : (e.1 == k) = true
  · right
    exact ⟨e, he, beq_iff_eq.mp hk, by rw [← heq, if_pos hk]⟩
  · left
    rw [← heq, if_neg hk]
    exact he

/-- In a table with pairwise-distinct keys, any row whose key is `k` carries
the record that `lookup` returns for `k`. -/
theorem eq_of_mem_key_lookup (db : Db) (hnd : (db.map Prod.fst).Nodup)
    (k : FileKey) (r : FileRecord) (h : lookup db k = some r)
    (e : FileKey × FileRecord) (he : e ∈ db) (hk : e.1 = k) : e.2 = r := by
  induction db with
  | nil => cases he
  | cons a as ih =>
    rw [List.map_cons, List.nodup_cons] at hnd
    rcases List.mem_cons.mp he with he | he
    · subst he
      have hb : (e.1 == k) = true := beq_iff_eq.mpr hk
      simp only [lookup, hb, reduceIte, Option.some.injEq] at h
      exact h
    · by_cases ha : (a.1 == k) = true
      · exfalso
        apply hnd.1
        rw [beq_iff_eq.mp ha, ← hk]
        exact List.mem_map.mpr ⟨e, he, rfl⟩
      · simp only [Bool.not_eq_true] at ha
        simp only [lookup, ha, Bool.false_eq_true, reduceIte] at h
        exact ih hnd.2 h he

/-- I2 is preserved by an `UPDATE` whose effect satisfies I2 on every
matching row. -/
theorem dbNonneg_updateRecord (db : Db) (k : FileKey)
    (f : FileRecord → FileRecord) (h : dbNonneg db)
    (hf : ∀ e ∈ db, e.1 = k → recNonneg (f e.2) = true) :
    dbNonneg (updateRecord db k f) := by
  intro e' he'
  rcases mem_updateRecord db k f e' he' with he' | ⟨e, he, hk, heq⟩
  · exact h e' he'
  · rw [heq]
    exact hf e he hk

/-- Setting `remaining := 0` satisfies I2. -/
theorem recNonneg_set_zero (ea : Option Int) :
    recNonneg { remaining := some 0, expires_at := ea } = true := by
  simp [recNonneg]

/-- C9 (amended): I2 — `remaining ≥ 0` whenever present — is preserved by
`check_and_decrement`, `expire` and `cleanup_expired_files` on any table with
unique primary keys, and by `register` whenever the effective
`max_downloads` (the argument, or the configured global default when the
argument is absent) is nonnegative.  (`register` with a negative
`max_downloads`, which the upload endpoint accepts unchecked, violates I2 —
see the counterexample.) -/
theorem C9_I2_preservation (now : Int) (db : Db) (k : FileKey)
    (hnd : (db.map Prod.fst).Nodup) (h : dbNonneg db) :
    dbNonneg (check_and_decrement now db k).1 ∧
    dbNonneg (expire db k).1 ∧
    dbNonneg (cleanup_expired_files now db) ∧
    (∀ (md d : Option Int) (gm now2 : Int) (db' : Db),
      0 ≤ md.getD gm → register db k md d gm now2 = Except.ok db' →
      dbNonneg db') := by
  refine ⟨?_, ?_, ?_, ?_⟩
  · -- check_and_decrement
    cases hl : lookup db k with
    | none => simpa [check_and_decrement, hl] using h
    | some r =>
      cases hexp : r.expires_at with
      | none =>
        cases hrem : r.remaining with
        | none => simpa [check_and_decrement, hl, hexp, hrem] using h
        | some m =>
          by_cases hm : m ≤ 0
          · simpa [check_and_decrement, hl, hexp, hrem, hm] using h
          · have hcad : (check_and_decrement now db k).1 =
                updateRecord db k
                  (fun x => { x with remaining := x.remaining.map (· - 1) }) := by
              simp [check_and_decrement, hl, hexp, hrem, hm]
            rw [hcad]
            apply dbNonneg_updateRecord db k _ h
            intro e he hk
            have her : e.2 = r := eq_of_mem_key_lookup db hnd k r hl e he hk
            rw [her, recNonneg_iff]
            intro m' hm'
            simp only [hrem] at hm'
            simp only [Option.map] at hm'
            injection hm' with hm'
            omega
      | some x =>
        by_cases hx : x < now
        · have hcad : (check_and_decrement now db k).1 =
              updateRecord db k (fun r1 => { r1 with remaining := some 0 }) := by
            simp [check_and_decrement, hl, hexp, hx]
          rw [hcad]
          apply dbNonneg_updateRecord db k _ h
          intro e _ _
          exact recNonneg_set_zero _
        · cases hrem : r.remaining with
          | none => simpa [check_and_decrement, hl, hexp, hx, hrem] using h
          | some m =>
            by_cases hm : m ≤ 0
            · simpa [check_and_decrement, hl, hexp, hx, hrem, hm] using h
            · have hcad : (check_and_decrement now db k).1 =
                  updateRecord db k
                    (fun r1 => { r1 with remaining := r1.remaining.map (· - 1) }) := by
                simp [check_and_decrement, hl, hexp, hx, hrem, hm]
              rw [hcad]
              apply dbNonneg_updateRecord db k _ h
              intro e he hk
              have her : e.2 = r := eq_of_mem_key_lookup db hnd k r hl e he hk
              rw [her, recNonneg_iff]
              intro m' hm'
              simp only [hrem] at hm'
              simp only [Option.map] at hm'
              injection hm' with hm'
              omega
  · -- expire
    by_cases hany : db.any (fun e => e.1 == k) = true
    · have : (expire db k).1 =
          updateRecord db k (fun r1 => { r1 with remaining := some 0 }) := by
        simp [expire, hany]
      rw [this]
      apply dbNonneg_updateRecord db k _ h
      intro e _ _
      exact recNonneg_set_zero _
    · simp only [Bool.not_eq_true] at hany
      simpa [expire, hany] using h
  · -- cleanup_expired_files
    rw [cleanup_eq_sweep]
    intro e' he'
    unfold cleanupSweep at he'
    obtain ⟨e, he, heq⟩ := List.mem_map.mp he'
    rcases hexp : e.2.expires_at with _ | x <;>
      rcases hrem : e.2.remaining with _ | m <;>
      simp only [hexp, hrem] at heq
    · rw [← heq]; exact h e he
    · rw [← heq]; exact h e he
    · rw [← heq]; exact h e he
    · by_cases hc : x < now ∧ m ≠ 0
      · rw [← heq, if_pos hc]
        exact recNonneg_set_zero _
      · rw [← heq, if_neg hc]
        exact h e he
  · -- register with nonnegative effective max_downloads
    intro md d gm now2 db' hmd hreg
    unfold register at hreg
    by_cases hempty : k.file_hash = "" ∨ k.chat_id = "" ∨ k.filename = ""
    · rw [if_pos hempty] at hreg
      cases hreg
    · rw [if_neg hempty] at hreg
      have hrec : recNonneg
          { remaining := if md.getD gm = 0 then none else some (md.getD gm),
            expires_at :=
              match d with
              | some dd => if dd ≠ 0 ∧ dd > 0 then some (now2 + dd * 86400) else none
              | none => none } = true := by
        by_cases h0 : md.getD gm = 0
        · simp [recNonneg, h0]
        · simp only [recNonneg, h0, reduceIte]
          rw [decide_eq_true_eq]
          exact hmd
      by_cases hkey : db.any (fun e => e.1 == k) = true
      · rw [if_pos hkey] at hreg
        cases hreg
        intro e' he'
        obtain ⟨e, he, heq⟩ := List.mem_map.mp he'
        by_cases hk : (e.1 == k) = true
        · rw [← heq, if_pos hk]
          exact hrec
        · rw [← heq, if_neg hk]
          exact h e he
      · rw [if_neg hkey] at hreg
        cases hreg
        intro e' he'
        rcases List.mem_append.mp he' with he' | he'
        · exact h e' he'
        · rcases List.mem_singleton.mp he' with heq
          rw [heq]
          exact hrec

/-- C9 witness: on the concrete one-row table, `check_and_decrement`,
`expire` and the sweep all preserve I2, and `register` with
`max_downloads = 2` produces a table satisfying I2. -/
theorem C9_witness :
    dbNonneg (check_and_decrement 3 exDb exKey).1 ∧
    dbNonneg (expire exDb exKey).1 ∧
    dbNonneg (cleanup_expired_files 3 exDb) := by
  have h := C9_I2_preservation 3 exDb exKey (by decide) (by decide)
  exact ⟨h.1, h.2.1, h.2.2.1⟩

/-- C9 counterexample: `register` called with `max_downloads = -1` — a value
the upload endpoint's unvalidated form field accepts — stores
`remaining = -1`, violating I2. -/
theorem C9_counterexample :
    register [] exKey (some (-1)) none 0 99 =
      Except.ok [(exKey, { remaining := some (-1), expires_at := none })] ∧
    ¬ dbNonneg [(exKey, { remaining := some (-1), expires_at := none })] := by
  refine ⟨rfl, by decide⟩

/-- Effect of consuming all spawn results: the queue grows by the number of
successful spawns, the spawn counter drops by one per result, and the target
is untouched. -/
theorem fill_fold_spec (outcomes : List (Option Nat)) (s : PoolState) :
    let s' := outcomes.foldl
      (fun s o =>
        match o with
        | some pod =>
          { s with
            executor_pod_queue := s.executor_pod_queue ++ [pod],
            executor_pod_queue_spawning_count :=
              s.executor_pod_queue_spawning_count - 1 }
        | none =>
          { s with
            executor_pod_queue_spawning_count :=
              s.executor_pod_queue_spawning_count - 1 }) s
    s'.executor_pod_queue.length =
      s.executor_pod_queue.length + outcomes.countP (fun o => o.isSome) ∧
    s'.executor_pod_queue_spawning_count =
      s.executor_pod_queue_spawning_count - outcomes.length ∧
    s'.executor_pod_queue_target_length =
      s.executor_pod_queue_target_length := by
  induction outcomes generalizing s with
  | nil => simp
  | cons o os ih =>
    cases o with
    | some pod =>
      obtain ⟨h1, h2, h3⟩ := ih
        { s with
          executor_pod_queue := s.executor_pod_queue ++ [pod],
          executor_pod_queue_spawning_count :=
            s.executor_pod_queue_spawning_count - 1 }
      refine ⟨?_, ?_, ?_⟩
      · simpa [List.countP_cons] using by rw [h1]; simp; omega
      · simp only [List.foldl_cons] at h2 ⊢
        rw [h2]
        simp only [List.length_cons]
        push_cast
        ring
      · simpa using h3
    | none =>
      obtain ⟨h1, h2, h3⟩ := ih
        { s with
          executor_pod_queue_spawning_count :=
            s.executor_pod_queue_spawning_count - 1 }
      refine ⟨?_, ?_, ?_⟩
      · simpa [List.countP_cons] using h1
      · simp only [List.foldl_cons] at h2 ⊢
        rw [h2]
        simp only [List.length_cons]
        push_cast
        ring
      · simpa using h3

/-- C8: if `|Q| + S ≤ T` holds when `fill_executor_pod_queue` is called and
the call consumes one result per spawned task
(`|outcomes| = max(0, T - |Q| - S)`), then after the call returns
`|Q| + S ≤ T` still holds; moreover `S` returns to its initial value (each
spawn decremented it exactly once after the up-front increment), and `Q` has
grown by exactly the number of successful spawns. -/
theorem C8_fill_queue_invariant (st : PoolState) (outcomes : List (Option Nat))
    (hlen : outcomes.length =
      (st.executor_pod_queue_target_length
        - st.executor_pod_queue.length
        - st.executor_pod_queue_spawning_count).toNat)
    (hsum : (st.executor_pod_queue.length : Int)
        + st.executor_pod_queue_spawning_count
        ≤ st.executor_pod_queue_target_length) :
    ((fill_executor_pod_queue st outcomes).executor_pod_queue.length : Int)
        + (fill_executor_pod_queue st outcomes).executor_pod_queue_spawning_count
        ≤ st.executor_pod_queue_target_length ∧
    (fill_executor_pod_queue st outcomes).executor_pod_queue_spawning_count
        = st.executor_pod_queue_spawning_count ∧
    (fill_executor_pod_queue st outcomes).executor_pod_queue.length
        = st.executor_pod_queue.length
          + outcomes.countP (fun o => o.isSome) ∧
    (fill_executor_pod_queue st outcomes).executor_pod_queue_target_length
        = st.executor_pod_queue_target_length := by
  set k : Int := st.executor_pod_queue_target_length
    - st.executor_pod_queue.length
    - st.executor_pod_queue_spawning_count with hk
  by_cases hk0 : k ≤ 0
  · have hempty : outcomes = [] := by
      apply List.length_eq_zero.mp
      rw [hlen]
      omega
    subst hempty
    have hfill : fill_executor_pod_queue st [] = st := by
      unfold fill_executor_pod_queue
      rw [← hk, if_pos hk0]
    rw [hfill]
    exact ⟨hsum, rfl, by simp, rfl⟩
  · push_neg at hk0
    have hfill : fill_executor_pod_queue st outcomes =
        outcomes.foldl
          (fun s o =>
            match o with
            | some pod =>
              { s with
                executor_pod_queue := s.executor_pod_queue ++ [pod],
                executor_pod_queue_spawning_count :=
                  s.executor_pod_queue_spawning_count - 1 }
            | none =>
              { s with
                executor_pod_queue_spawning_count :=
                  s.executor_pod_queue_spawning_count - 1 })
          { st with
            executor_pod_queue_spawning_count :=
              st.executor_pod_queue_spawning_count + k } := by
      unfold fill_executor_pod_queue
      rw [← hk, if_neg (not_le.mpr hk0)]
    obtain ⟨h1, h2, h3⟩ := fill_fold_spec outcomes
      { st with
        executor_pod_queue_spawning_count :=
          st.executor_pod_queue_spawning_count + k }
    rw [hfill]
    have hcount : outcomes.countP (fun o => o.isSome) ≤ outcomes.length :=
      List.countP_le_length _
    have hlenk : (outcomes.length : Int) = k := by
      rw [hlen]
      omega
    refine ⟨?_, ?_, ?_, ?_⟩
    · rw [h1, h2]
      simp only
      push_cast
      omega
    · rw [h2]
      simp only
      omega
    · rw [h1]
    · rw [h3]

/-- C8 witness: target 2, one spawn succeeds and one fails — afterwards the
queue holds one pod, the spawn counter is back to 0, and `|Q| + S ≤ T`. -/
theorem C8_witness :
    ((fill_executor_pod_queue exPool [some 7, none]).executor_pod_queue.length : Int)
        + (fill_executor_pod_queue exPool [some 7, none]).executor_pod_queue_spawning_count
        ≤ 2 :=
  (C8_fill_queue_invariant exPool [some 7, none] (by decide) (by decide)).1

/-- On a live record with a positive download counter and no date expiry,
`check_and_decrement` succeeds and decrements. -/
theorem cad_decrement_branch (now : Int) (db : Db) (k : FileKey)
    (r : FileRecord) (m : Int) (h : lookup db k = some r)
    (hd : ∀ e, r.expires_at = some e → ¬ e < now)
    (hm : r.remaining = some m) (hpos : 0 < m) :
    check_and_decrement now db k =
      (updateRecord db k
        (fun x => { x with remaining := x.remaining.map (· - 1) }), none) := by
  have hnle : ¬ m ≤ 0 := not_le.mpr hpos
  cases hexp : r.expires_at with
  | none => simp [check_and_decrement, h, hexp, hm, hnle]
  | some e =>
    have hdx : decide (e < now) = false := by simpa using hd e hexp
    simp [check_and_decrement, h, hexp, hdx, hm, hnle]

/-- Overwriting an existing path in place makes it hold the new data. -/
theorem lookupFile_map_set (l : List (FilePath1 × String)) (p : FilePath1)
    (data : String) (h : l.any (fun e => e.1 == p) = true) :
    lookupFile (l.map (fun e => if e.1 == p then (p, data) else e)) p =
      some data := by
  induction l with
  | nil => simp at h
  | cons e es ih =>
    by_cases he : (e.1 == p) = true
    · simp [lookupFile, he]
    · simp only [Bool.not_eq_true] at he
      rw [List.any_cons, he, Bool.false_or] at h
      simpa [lookupFile, he] using ih h

/-- Appending a fresh path makes it hold the written data. -/
theorem lookupFile_append_new (l : List (FilePath1 × String)) (p : FilePath1)
    (data : String) (h : l.any (fun e => e.1 == p) = false) :
    lookupFile (l ++ [(p, data)]) p = some data := by
  induction l with
  | nil => simp [lookupFile]
  | cons e es ih =>
    rw [List.any_cons, Bool.or_eq_false_iff] at h
    simpa [lookupFile, h.1] using ih h.2

/-- After `writeFile`, reading the same path returns the written data. -/
theorem lookupFile_writeFile (fs : FS) (p : FilePath1) (data : String) :
    lookupFile (writeFile fs p data).files p = some data := by
  unfold writeFile
  by_cases h : fs.files.any (fun e => e.1 == p) = true
  · rw [if_pos h]
    exact lookupFile_map_set fs.files p data h
  · rw [if_neg h]
    simp only [Bool.not_eq_true] at h
    exact lookupFile_append_new fs.files p data h

/-- `writeFile` does not change the set of directories. -/
theorem writeFile_dirs (fs : FS) (p : FilePath1) (data : String) :
    (writeFile fs p data).dirs = fs.dirs := by
  unfold writeFile
  by_cases h : fs.files.any (fun e => e.1 == p) = true
  · rw [if_pos h]
  · rw [if_neg h]

/-- `mkdirExistOk` makes the directory exist. -/
theorem mem_mkdirExistOk_self (fs : FS) (p : FilePath1) :
    p ∈ (mkdirExistOk fs p).dirs := by
  unfold mkdirExistOk
  by_cases h : p ∈ fs.dirs
  · rw [if_pos h]
    exact h
  · rw [if_neg h]
    simp

/-- `mkdirExistOk` keeps every existing directory. -/
theorem mem_mkdirExistOk_of_mem (fs : FS) (p q : FilePath1) (h : q ∈ fs.dirs) :
    q ∈ (mkdirExistOk fs p).dirs := by
  unfold mkdirExistOk
  by_cases hp : p ∈ fs.dirs
  · rw [if_pos hp]
    exact h
  · rw [if_neg hp]
    simp [h]

/-- C4 (amended): for every `writer(filename, chat_id)` scope, whether the
scope body succeeds or fails, the written file remains at
`<root>/<chat_id>/<hash>/<filename>` under the handle allocated at scope
entry, and both the chat directory and the hash directory exist afterwards —
on scope failure nothing is cleaned up; the scope's success flag mirrors the
body's outcome. -/
theorem C4_writer_spec (fs : FS) (filename chat_id hash data : String)
    (bodyFails : Bool) :
    lookupFile (Storage.writer fs filename chat_id hash data bodyFails).1.files
        [chat_id, hash, filename] = some data ∧
    [chat_id] ∈ (Storage.writer fs filename chat_id hash data bodyFails).1.dirs ∧
    [chat_id, hash] ∈
      (Storage.writer fs filename chat_id hash data bodyFails).1.dirs ∧
    (Storage.writer fs filename chat_id hash data bodyFails).2 = !bodyFails := by
  refine ⟨lookupFile_writeFile _ _ _, ?_, ?_, rfl⟩
  · rw [Storage.writer]
    simp only
    rw [writeFile_dirs]
    exact mem_mkdirExistOk_of_mem _ _ _ (mem_mkdirExistOk_self _ _)
  · rw [Storage.writer]
    simp only
    rw [writeFile_dirs]
    exact mem_mkdirExistOk_self _ _

/-- C4 counterexample: a failing writer scope (body raises after writing
part of the data).  The claim says the partial file and the hash directory
are then removed; the code removes neither — the partial blob is still
readable and the hash directory still exists after the scope exits with
failure. -/
theorem C4_counterexample :
    (Storage.writer exFS "notes.txt" "c1" "h1" "half-written" true).2 = false ∧
    lookupFile (Storage.writer exFS "notes.txt" "c1" "h1" "half-written" true).1.files
        ["c1", "h1", "notes.txt"] = some "half-written" ∧
    ["c1", "h1"] ∈
      (Storage.writer exFS "notes.txt" "c1" "h1" "half-written" true).1.dirs := by
  refine ⟨rfl, by decide, by decide⟩

/-- C10: on a record that is live in the index (present, not date-expired,
positive download counter) whose blob is absent on disk, `Storage.reader`
runs `check_and_decrement` before the existence check, so it fails with the
on-disk not-found error while the index is left with `remaining` decremented
by one — the error path does not restore it; the `/v1/download` handler does
the same and collapses the failure to a 404. -/
theorem C10_reader_decrements_on_missing_blob (now : Int) (db : Db) (fs : FS)
    (k : FileKey) (r : FileRecord) (m : Int)
    (h : lookup db k = some r)
    (hd : ∀ e, r.expires_at = some e → ¬ e < now)
    (hm : r.remaining = some m) (hpos : 0 < m)
    (hv1 : validIdent k.file_hash = true) (hv2 : validIdent k.chat_id = true)
    (hv3 : validFileName k.filename = true)
    (hmiss : lookupFile fs.files [k.chat_id, k.file_hash, k.filename] = none) :
    Storage.reader now db fs k =
      (updateRecord db k
        (fun x => { x with remaining := x.remaining.map (· - 1) }),
       some ReadErr.NotFoundOnDisk) ∧
    download now db fs k =
      (updateRecord db k
        (fun x => { x with remaining := x.remaining.map (· - 1) }),
       some 404) ∧
    lookup (Storage.reader now db fs k).1 k =
      some { r with remaining := some (m - 1) } := by
  have hcad := cad_decrement_branch now db k r m h hd hm hpos
  have hreader : Storage.reader now db fs k =
      (updateRecord db k
        (fun x => { x with remaining := x.remaining.map (· - 1) }),
       some ReadErr.NotFoundOnDisk) := by
    unfold Storage.reader
    rw [hcad]
    simp only
    rw [if_pos (Or.inr hmiss)]
  refine ⟨hreader, ?_, ?_⟩
  · unfold download
    rw [hv1, hv2, hv3]
    simp only [Bool.not_true, Bool.false_eq_true, reduceIte]
    rw [hcad]
    simp only
    rw [if_pos hmiss]
  · rw [hreader]
    simp only
    rw [lookup_updateRecord, h]
    simp [hm]

/-- C10 witness: the example record has one download left and a future
expiry, the filesystem is empty — the read fails with the on-disk error and
the counter drops from 1 to 0. -/
theorem C10_witness :
    Storage.reader 3 exDb exFS exKey =
      (updateRecord exDb exKey
        (fun x => { x with remaining := x.remaining.map (· - 1) }),
       some ReadErr.NotFoundOnDisk) ∧
    download 3 exDb exFS exKey =
      (updateRecord exDb exKey
        (fun x => { x with remaining := x.remaining.map (· - 1) }),
       some 404) ∧
    lookup (Storage.reader 3 exDb exFS exKey).1 exKey =
      some { remaining := some 0, expires_at := some 5 } := by
  have h := C10_reader_decrements_on_missing_blob 3 exDb exFS exKey
    { remaining := some 1, expires_at := some 5 } 1 (by decide)
    (by intro e he; simp at he; omega) rfl (by decide)
    (by decide) (by decide) (by decide) (by decide)
  exact ⟨h.1, h.2.1, h.2.2⟩

/-- `Char.ofNat` of a valid code point has that code point. -/
theorem char_toNat_ofNat (n : Nat) (h : n.isValidChar) :
    (Char.ofNat n).toNat = n := by
  unfold Char.ofNat
  rw [dif_pos h]
  rfl

/-- Lower-casing removes upper-case-ness. -/
theorem isUpperAscii_toLowerAscii (c : Char) :
    isUpperAscii (toLowerAscii c) = false := by
  unfold toLowerAscii isUpperAscii
  by_cases h : 65 ≤ c.toNat ∧ c.toNat ≤ 90
  · rw [if_pos h]
    have hv : (c.toNat + 32).isValidChar := Or.inl (by omega)
    rw [char_toNat_ofNat _ hv]
    have hgt : ¬ (c.toNat + 32 ≤ 90) := by omega
    simp [hgt]
  · rw [if_neg h]
    simp only [Bool.and_eq_false_iff, decide_eq_false_iff_not]
    omega

/-- Lower-casing fixes characters that are not upper-case. -/
theorem toLowerAscii_eq_self (c : Char) (h : isUpperAscii c = false) :
    toLowerAscii c = c := by
  unfold isUpperAscii at h
  simp only [Bool.and_eq_false_iff, decide_eq_false_iff_not] at h
  unfold toLowerAscii
  rw [if_neg]
  intro hc
  rcases h with h | h
  · exact h hc.1
  · exact h hc.2

/-- The snake-case transform emits no upper-case characters. -/
theorem snakeTail_noUpper (cs : List Char) :
    (snakeTail cs).all (fun c => !isUpperAscii c) = true := by
  induction cs with
  | nil => rfl
  | cons c cs ih =>
    have hus : isUpperAscii '_' = false := by decide
    by_cases hu : isUpperAscii c = true
    · simp [snakeTail, hu, isUpperAscii_toLowerAscii, ih, hus]
    · simp only [Bool.not_eq_true] at hu
      simp [snakeTail, hu, isUpperAscii_toLowerAscii, ih, hus]

/-- `camel_to_snake` output contains no upper-case characters. -/
theorem camel_noUpper (s : String) :
    (camel_to_snake s).data.all (fun c => !isUpperAscii c) = true := by
  obtain ⟨l⟩ := s
  cases l with
  | nil => rfl
  | cons c cs =>
    show ((⟨toLowerAscii c :: snakeTail cs⟩ : String)).data.all _ = true
    simp [isUpperAscii_toLowerAscii, snakeTail_noUpper]

/-- The snake-case transform fixes strings without upper-case characters. -/
theorem snakeTail_id (cs : List Char)
    (h : cs.all (fun c => !isUpperAscii c) = true) : snakeTail cs = cs := by
  induction cs with
  | nil => rfl
  | cons c cs ih =>
    rw [List.all_cons, Bool.and_eq_true] at h
    have hu : isUpperAscii c = false := by simpa using h.1
    simp [snakeTail, hu, toLowerAscii_eq_self c hu, ih h.2]

/-- `camel_to_snake` fixes strings without upper-case characters. -/
theorem camel_to_snake_id (s : String)
    (h : s.data.all (fun c => !isUpperAscii c) = true) :
    camel_to_snake s = s := by
  obtain ⟨l⟩ := s
  cases l with
  | nil => rfl
  | cons c cs =>
    simp only [String.data] at h
    rw [List.all_cons, Bool.and_eq_true] at h
    have hu : isUpperAscii c = false := by simpa using h.1
    show (⟨toLowerAscii c :: snakeTail cs⟩ : String) = ⟨c :: cs⟩
    rw [toLowerAscii_eq_self c hu, snakeTail_id cs h.2]

/-- `camel_to_snake` is idempotent. -/
theorem camel_to_snake_idem (s : String) :
    camel_to_snake (camel_to_snake s) = camel_to_snake s :=
  camel_to_snake_id _ (camel_noUpper s)

/-- The alias table's values. -/
theorem aliases_cases (k v : String) (h : ALIASES k = some v) :
    v = "source_code" ∨ v = "timeout" ∨ v = "limit" := by
  unfold ALIASES at h
  split_ifs at h <;> injection h with h <;> subst h <;> simp

/-- A key whose canonical image is outside the alias domain is a fixed point
of `canonKey` after one application. -/
theorem canonKey_fixed (k : String) (h : isAliasKey (canonKey k) = false) :
    canonKey (canonKey k) = canonKey k := by
  have h9 : ALIASES (canonKey k) = none := by
    cases ha : ALIASES (canonKey k) with
    | none => rfl
    | some v =>
      rw [isAliasKey, ha] at h
      simp at h
  have hstep : canonKey (canonKey k) = camel_to_snake (canonKey k) := by
    rw [canonKey, h9]
    rfl
  rw [hstep]
  cases halias : ALIASES k with
  | none =>
    rw [canonKey, halias]
    exact camel_to_snake_idem k
  | some v =>
    rw [canonKey, halias]
    rcases aliases_cases k v halias with hv | hv | hv <;> subst hv <;>
      · rw [Option.getD_some]
        decide

/-- Entries after a dict insert: an old entry or the inserted pair. -/
theorem mem_dictInsert (l : List (String × J)) (k : String) (v : J)
    (e' : String × J) (h : e' ∈ dictInsert l k v) : e' ∈ l ∨ e' = (k, v) := by
  induction l with
  | nil =>
    right
    simpa [dictInsert] using h
  | cons e es ih =>
    by_cases he : (e.1 == k) = true
    · rw [dictInsert, if_pos he] at h
      rcases List.mem_cons.mp h with h | h
      · right
        rw [h, beq_iff_eq.mp he]
      · left
        exact List.mem_cons_of_mem _ h
    · rw [dictInsert, if_neg he] at h
      rcases List.mem_cons.mp h with h | h
      · left
        rw [h]
        exact List.mem_cons_self _ _
      · rcases ih h with h | h
        · left
          exact List.mem_cons_of_mem _ h
        · right
          exact h

/-- Entries after building the dict: from the accumulator or the input. -/
theorem mem_dictOfAux (l : List (String × J)) :
    ∀ acc e', e' ∈ dictOfAux acc l → e' ∈ acc ∨ e' ∈ l := by
  induction l with
  | nil =>
    intro acc e' h
    left
    simpa [dictOfAux] using h
  | cons e es ih =>
    intro acc e' h
    obtain ⟨k, v⟩ := e
    rw [dictOfAux] at h
    rcases ih _ e' h with h | h
    · rcases mem_dictInsert acc k v e' h with h | h
      · left
        exact h
      · right
        rw [h]
        exact List.mem_cons_self _ _
    · right
      exact List.mem_cons_of_mem _ h

/-- Dict insert keeps keys pairwise distinct. -/
theorem pairwise_dictInsert (l : List (String × J)) (k : String) (v : J)
    (h : l.Pairwise (fun a b => a.1 ≠ b.1)) :
    (dictInsert l k v).Pairwise (fun a b => a.1 ≠ b.1) := by
  induction l with
  | nil => simp [dictInsert]
  | cons e es ih =>
    rw [List.pairwise_cons] at h
    by_cases he : (e.1 == k) = true
    · rw [dictInsert, if_pos he, List.pairwise_cons]
      exact ⟨h.1, h.2⟩
    · rw [dictInsert, if_neg he, List.pairwise_cons]
      refine ⟨?_, ih h.2⟩
      intro b hb
      rcases mem_dictInsert es k v b hb with hb | hb
      · exact h.1 b hb
      · rw [hb]
        simpa using (beq_iff_eq (a := e.1) (b := k)).not.mp
          (by simp [he])

/-- Inserting a fresh key appends it. -/
theorem dictInsert_of_not_mem (l : List (String × J)) (k : String) (v : J)
    (h : ∀ e ∈ l, e.1 ≠ k) : dictInsert l k v = l ++ [(k, v)] := by
  induction l with
  | nil => rfl
  | cons e es ih =>
    have he : (e.1 == k) = false := by
      simpa using h e (List.mem_cons_self _ _)
    rw [dictInsert, he]
    simp only [Bool.false_eq_true, reduceIte, List.cons_append,
      List.cons.injEq, true_and]
    exact ih (fun e' he' => h e' (List.mem_cons_of_mem _ he'))

/-- Building the dict from key-distinct input disjoint from the accumulator
just appends. -/
theorem dictOfAux_eq_append (l : List (String × J)) :
    ∀ acc, l.Pairwise (fun a b => a.1 ≠ b.1) →
      (∀ e ∈ acc, ∀ e' ∈ l, e.1 ≠ e'.1) →
      dictOfAux acc l = acc ++ l := by
  induction l with
  | nil =>
    intro acc _ _
    simp [dictOfAux]
  | cons e es ih =>
    intro acc hl hdisj
    obtain ⟨k, v⟩ := e
    rw [List.pairwise_cons] at hl
    rw [dictOfAux]
    rw [dictInsert_of_not_mem acc k v
      (fun e' he' => hdisj e' he' (k, v) (List.mem_cons_self _ _))]
    rw [ih (acc ++ [(k, v)]) hl.2 ?_]
    · simp
    · intro e1 he1 e2 he2
      rcases List.mem_append.mp he1 with he1 | he1
      · exact hdisj e1 he1 e2 (List.mem_cons_of_mem _ he2)
      · rw [List.mem_singleton.mp he1]
        exact hl.1 e2 he2

/-- The built dict has pairwise-distinct keys. -/
theorem dictOfAux_pairwise (l : List (String × J)) :
    ∀ acc, acc.Pairwise (fun a b => a.1 ≠ b.1) →
      (dictOfAux acc l).Pairwise (fun a b => a.1 ≠ b.1) := by
  induction l with
  | nil =>
    intro acc h
    simpa [dictOfAux] using h
  | cons e es ih =>
    intro acc h
    obtain ⟨k, v⟩ := e
    rw [dictOfAux]
    exact ih _ (pairwise_dictInsert acc k v h)

/-- `canonKVs` fixes lists whose entries are already canonical. -/
theorem canonKVs_fixed (l : List (String × J))
    (h : ∀ e ∈ l, canonKey e.1 = e.1 ∧ canonicalise e.2 = e.2) :
    canonKVs l = l := by
  induction l with
  | nil => rfl
  | cons e es ih =>
    obtain ⟨k, v⟩ := e
    have hh := h (k, v) (List.mem_cons_self _ _)
    rw [canonKVs, hh.1, hh.2,
      ih (fun e' he' => h e' (List.mem_cons_of_mem _ he'))]

mutual

/-- Idempotence of `canonicalise` on values satisfying the key condition. -/
theorem canon_idem : ∀ x : J, goodKeys x = true →
    canonicalise (canonicalise x) = canonicalise x
  | .null, _ => rfl
  | .bool _, _ => rfl
  | .num _, _ => rfl
  | .str _, _ => rfl
  | .arr xs, hg => by
    have h := canonList_idem xs (by simpa [goodKeys] using hg)
    simp only [canonicalise]
    rw [h]
  | .obj kvs, hg => by
    have hfix0 := canonKVs_fixed_all kvs (by simpa [goodKeys] using hg)
    have hmemD : ∀ e ∈ dictOfAux [] (canonKVs kvs), e ∈ canonKVs kvs := by
      intro e he
      rcases mem_dictOfAux (canonKVs kvs) [] e he with h | h
      · cases h
      · exact h
    have h1 : canonKVs (dictOfAux [] (canonKVs kvs)) =
        dictOfAux [] (canonKVs kvs) :=
      canonKVs_fixed _ (fun e he => hfix0 e (hmemD e he))
    have h2 : (dictOfAux [] (canonKVs kvs)).Pairwise (fun a b => a.1 ≠ b.1) :=
      dictOfAux_pairwise (canonKVs kvs) [] (List.Pairwise.nil)
    have h3 : dictOfAux [] (dictOfAux [] (canonKVs kvs)) =
        dictOfAux [] (canonKVs kvs) := by
      rw [dictOfAux_eq_append _ [] h2 (by simp)]
      simp
    simp only [canonicalise]
    rw [h1, h3]

/-- Idempotence of `canonList` on lists of good values. -/
theorem canonList_idem : ∀ xs : List J, goodList xs = true →
    canonList (canonList xs) = canonList xs
  | [], _ => rfl
  | x :: xs, hg => by
    have hgx : goodKeys x = true ∧ goodList xs = true := by
      simpa [goodList, Bool.and_eq_true] using hg
    have h1 := canon_idem x hgx.1
    have h2 := canonList_idem xs hgx.2
    simp only [canonList]
    rw [h1, h2]

/-- Every processed pair of a good key/value list is canonical. -/
theorem canonKVs_fixed_all : ∀ kvs : List (String × J), goodKVs kvs = true →
    ∀ e ∈ canonKVs kvs, canonKey e.1 = e.1 ∧ canonicalise e.2 = e.2
  | [], _ => by
    intro e he
    cases he
  | (k, v) :: kvs, hg => by
    have hgx : isAliasKey (canonKey k) = false ∧ goodKeys v = true ∧
        goodKVs kvs = true := by
      have hg' : (!(isAliasKey (canonKey k)) && goodKeys v && goodKVs kvs)
          = true := by simpa [goodKVs] using hg
      rw [Bool.and_eq_true, Bool.and_eq_true] at hg'
      exact ⟨by simpa using hg'.1.1, hg'.1.2, hg'.2⟩
    intro e he
    rw [canonKVs] at he
    rcases List.mem_cons.mp he with he | he
    · rw [he]
      exact ⟨canonKey_fixed k hgx.1, canon_idem v hgx.2.1⟩
    · exact canonKVs_fixed_all kvs hgx.2.2 e he

end

/-- C5 (amended): `canonicalise({sourceCode: v})` yields
`{source_code: canonicalise(v)}` for every value `v`, and canonicalisation
is idempotent on every value none of whose nested object keys canonicalises
into the alias domain (in particular, on values avoiding keys such as
`"Code"`, whose normalisation `"code"` is itself an alias key). -/
theorem C5_canonicalise_spec :
    (∀ x : J, goodKeys x = true →
      canonicalise (canonicalise x) = canonicalise x) ∧
    (∀ v : J, canonicalise (J.obj [("sourceCode", v)]) =
      J.obj [("source_code", canonicalise v)]) :=
  ⟨canon_idem, fun _ => rfl⟩

/-- C5 witness: a camelCase object is canonicalised idempotently, and the
`sourceCode` alias folds to `source_code`. -/
theorem C5_witness :
    canonicalise (canonicalise
        (J.obj [("userName", J.num 2), ("items", J.arr [J.str "a"])])) =
      canonicalise
        (J.obj [("userName", J.num 2), ("items", J.arr [J.str "a"])]) ∧
    canonicalise (J.obj [("sourceCode", J.str "print(1)")]) =
      J.obj [("source_code", J.str "print(1)")] :=
  ⟨C5_canonicalise_spec.1 _ (by decide), C5_canonicalise_spec.2 _⟩

/-- C5 counterexample: idempotence fails in general — the key `"Code"`
normalises to `"code"` on the first pass and `"code"` is an alias for
`"source_code"`, so a second pass changes the value again. -/
theorem C5_counterexample :
    canonicalise (canonicalise (J.obj [("Code", J.num 1)])) ≠
      canonicalise (J.obj [("Code", J.num 1)]) := by
  intro hcontra
  have h1 : canonicalise (canonicalise (J.obj [("Code", J.num 1)])) =
      J.obj [("source_code", J.num 1)] := rfl
  have h2 : canonicalise (J.obj [("Code", J.num 1)]) =
      J.obj [("code", J.num 1)] := rfl
  rw [h1, h2] at hcontra
  injection hcontra with h3
  injection h3 with h4 h5
  injection h4 with h6 h7
  exact absurd h6 (by decide)

/-- C6: the `/v1/execute` handler's parse step as shipped: when the strict
`json.loads` fails (`strict = none`), the handler raises an unhandled
exception (HTTP 500) — no json-repair pass runs (the documented stage would
re-parse the repaired body and answer 422 only if that also fails, and would
succeed whenever repair succeeds, but it is commented out). -/
theorem C6_parse_repair_divergence :
    execute_parse_stage none = Except.error 500 ∧
    execute_parse_stage_documented none none = Except.error 422 ∧
    (∀ j : J, execute_parse_stage_documented none (some j) = Except.ok j ∧
      execute_parse_stage none = Except.error 500) :=
  ⟨rfl, rfl, fun _ => ⟨rfl, rfl⟩⟩

/-- C1: with `public_spawn_enabled = false`, a request whose Host header is
not in the allow-list and whose client IP is in none of the allow-listed
CIDRs (here: any CIDR membership semantics at all, since the result does not
depend on it) is nevertheless admitted — `or "127.0.0.1"` makes every
generator element truthy, so `ip_ok` is true for any non-empty allow-list
and `_guard_spawn` never raises 403. -/
theorem C1_guard_admits_outside_request
    (ipInNetwork : String → String → Bool) :
    is_internal_request ipInNetwork "evil.example.com" "8.8.8.8"
      ["10.0.0.0/8"] = true ∧
    guard_spawn false ipInNetwork "evil.example.com" "8.8.8.8"
      ["10.0.0.0/8"] = none := by
  have ht : pyStrTruthy "127.0.0.1" = true := by decide
  have h1 : is_internal_request ipInNetwork "evil.example.com" "8.8.8.8"
      ["10.0.0.0/8"] = true := by
    unfold is_internal_request
    simp [ht]
  refine ⟨h1, ?_⟩
  unfold guard_spawn
  rw [h1]
  rfl

end CodeInterp
